import Mathlib

set_option maxRecDepth 100000

/-!
# Verification of the Sigil Protocol core pipeline (src/main.rs)

This file gives a shallow embedding, in Lean 4, of the core operations of the
Sigil archival tool: the seed derivation (`generate_seed`), the chaotic byte
transform (`hybrid_chaos` / `apply_chaos`), the archive container operations
(`sigil_commit`, `sigil_recover`, `sigil_verify`), the embed/extract interface
(`sigil_embed`, `sigil_extract`) and the key derivation (`sigil_derive`).

Modelling conventions:
* Byte strings are `List Nat`, each entry intended `< 256`.
* Machine integers are `Nat` with explicit `% 2^w` where wrapping matters.
* Rust `f64` values are modelled by unnormalised fractions (`Q` below), with
  every arithmetic operation of the source followed by explicit rounding to a
  53-bit significand, round-to-nearest ties-to-even (`roundF64`), matching
  IEEE-754 binary64 with unbounded exponent.  `sin`/`cos` come from libm and
  are not exactly specified by the source, so they are parameters of the
  embedding; every theorem below is independent of their values.
* File I/O is externalised: functions take the relevant byte content directly.
* Library calls (`zstd`, ed25519 signing) are parameters of the embedding;
  length-checking behaviour of `ed25519_dalek` v1 `Keypair::from_bytes`
  (exactly 64 bytes required) is modelled explicitly since the code depends
  on it.
* A Rust panic (out-of-bounds slice index) is modelled as `none` in an
  `Option`-valued result; `Except` models `anyhow::Result`.
-/

/-! ## Byte-level utilities -/

/-- Little-endian read of a byte list into a natural number
(models `u64::from_le_bytes` when the list has 8 entries `< 256`). -/
def u64_from_le (bs : List Nat) : Nat :=
  bs.foldr (fun b acc => b + 256 * acc) 0

/-- The 8 little-endian bytes of `n` (models `u64::to_le_bytes`). -/
def u64_to_le (n : Nat) : List Nat :=
  (List.range 8).map (fun i => n / 256 ^ i % 256)

/-- Does `l` start with `pre`?  (models `<[u8]>::starts_with`). -/
def listStartsWith (pre l : List Nat) : Bool :=
  l.take pre.length == pre

/-- Is `pat` the contiguous slice of `data` starting at `i`? -/
def substrAt (pat data : List Nat) (i : Nat) : Bool :=
  (data.drop i).take pat.length == pat

/-- Index of the first window of `data` equal to `pat`
(models `data.windows(pat.len()).position(|w| w == pat)`). -/
def findPos (pat data : List Nat) : Option Nat :=
  (List.range (data.length + 1 - pat.length)).find? (fun i => substrAt pat data i)

/-- Index of the last window of `data` equal to `pat`
(models `data.windows(pat.len()).rposition(|w| w == pat)`). -/
def rfindPos (pat data : List Nat) : Option Nat :=
  (List.range (data.length + 1 - pat.length)).foldl
    (fun acc i => if substrAt pat data i then some i else acc) none

/-! ## SHA-256 (the `sha2` crate's `Sha256`), bytes in, 32 bytes out -/

/-- Truncation to a 32-bit word. -/
def w32 (n : Nat) : Nat := n % 4294967296

/-- Right rotation of a 32-bit word (input assumed `< 2^32`). -/
def rotr32 (n w : Nat) : Nat := w / 2 ^ n + w % 2 ^ n * 2 ^ (32 - n)

def sha256BigSigma0 (x : Nat) : Nat := rotr32 2 x ^^^ rotr32 13 x ^^^ rotr32 22 x
def sha256BigSigma1 (x : Nat) : Nat := rotr32 6 x ^^^ rotr32 11 x ^^^ rotr32 25 x
def sha256SmallSigma0 (x : Nat) : Nat := rotr32 7 x ^^^ rotr32 18 x ^^^ x / 2 ^ 3
def sha256SmallSigma1 (x : Nat) : Nat := rotr32 17 x ^^^ rotr32 19 x ^^^ x / 2 ^ 10
def sha256Ch (x y z : Nat) : Nat := x &&& y ^^^ (x ^^^ 4294967295) &&& z
def sha256Maj (x y z : Nat) : Nat := x &&& y ^^^ x &&& z ^^^ y &&& z

/-- The 64 SHA-256 round constants. -/
def sha256K : List Nat :=
  [1116352408, 1899447441, 3049323471, 3921009573, 961987163,
   1508970993, 2453635748, 2870763221, 3624381080, 310598401,
   607225278, 1426881987, 1925078388, 2162078206, 2614888103,
   3248222580, 3835390401, 4022224774, 264347078, 604807628,
   770255983, 1249150122, 1555081692, 1996064986, 2554220882,
   2821834349, 2952996808, 3210313671, 3336571891, 3584528711,
   113926993, 338241895, 666307205, 773529912, 1294757372,
   1396182291, 1695183700, 1986661051, 2177026350, 2456956037,
   2730485921, 2820302411, 3259730800, 3345764771, 3516065817,
   3600352804, 4094571909, 275423344, 430227734, 506948616,
   659060556, 883997877, 958139571, 1322822218, 1537002063,
   1747873779, 1955562222, 2024104815, 2227730452, 2361852424,
   2428436474, 2756734187, 3204031479, 3329325298]

/-- Working state of the SHA-256 compression function: eight 32-bit words. -/
structure Sha256State where
  a : Nat
  b : Nat
  c : Nat
  d : Nat
  e : Nat
  f : Nat
  g : Nat
  h : Nat
deriving DecidableEq

/-- SHA-256 initial hash value. -/
def sha256H0 : Sha256State :=
  ⟨1779033703, 3144134277, 1013904242, 2773480762,
   1359893119, 2600822924, 528734635, 1541459225⟩

/-- SHA-256 padding: append byte 128, zeros to 56 mod 64, then the bit length
as 8 big-endian bytes. -/
def sha256Pad (msg : List Nat) : List Nat :=
  let L := msg.length
  let k := (119 - L % 64) % 64
  msg ++ [128] ++ List.replicate k 0 ++
    (List.range 8).map (fun i => 8 * L / 2 ^ (8 * (7 - i)) % 256)

/-- Big-endian 32-bit word at position `t` of a 64-byte block. -/
def sha256WordAt (block : List Nat) (t : Nat) : Nat :=
  block.getD (4 * t) 0 * 2 ^ 24 + block.getD (4 * t + 1) 0 * 2 ^ 16 +
    block.getD (4 * t + 2) 0 * 2 ^ 8 + block.getD (4 * t + 3) 0

/-- The 64-entry message schedule of a block. -/
def sha256Schedule (block : List Nat) : List Nat :=
  (List.range 64).foldl
    (fun W t =>
      if t < 16 then W ++ [sha256WordAt block t]
      else W ++ [w32 (sha256SmallSigma1 (W.getD (t - 2) 0) + W.getD (t - 7) 0 +
        sha256SmallSigma0 (W.getD (t - 15) 0) + W.getD (t - 16) 0)]) []

/-- One round of the compression function. -/
def sha256Round (s : Sha256State) (kw : Nat × Nat) : Sha256State :=
  let T1 := w32 (s.h + sha256BigSigma1 s.e + sha256Ch s.e s.f s.g + kw.1 + kw.2)
  let T2 := w32 (sha256BigSigma0 s.a + sha256Maj s.a s.b s.c)
  ⟨w32 (T1 + T2), s.a, s.b, s.c, w32 (s.d + T1), s.e, s.f, s.g⟩

/-- Compression of one 64-byte block into the running state. -/
def sha256Compress (st : Sha256State) (block : List Nat) : Sha256State :=
  let r := (sha256K.zip (sha256Schedule block)).foldl sha256Round st
  ⟨w32 (st.a + r.a), w32 (st.b + r.b), w32 (st.c + r.c), w32 (st.d + r.d),
   w32 (st.e + r.e), w32 (st.f + r.f), w32 (st.g + r.g), w32 (st.h + r.h)⟩

/-- Big-endian bytes of a 32-bit word. -/
def sha256WordBytes (wrd : Nat) : List Nat :=
  [wrd / 2 ^ 24 % 256, wrd / 2 ^ 16 % 256, wrd / 2 ^ 8 % 256, wrd % 256]

/-- The SHA-256 digest (32 bytes) of a byte string. -/
def sha256 (msg : List Nat) : List Nat :=
  let padded := sha256Pad msg
  let final := ((List.range (padded.length / 64)).map
    (fun i => (padded.drop (64 * i)).take 64)).foldl sha256Compress sha256H0
  sha256WordBytes final.a ++ sha256WordBytes final.b ++ sha256WordBytes final.c ++
    sha256WordBytes final.d ++ sha256WordBytes final.e ++ sha256WordBytes final.f ++
    sha256WordBytes final.g ++ sha256WordBytes final.h

/-! ## A model of IEEE-754 binary64 arithmetic

Rust `f64` values are modelled as unnormalised fractions `Q` (integer
numerator, natural denominator, denominator positive by construction).  Each
`f64` operation of the source is modelled as the exact rational operation
followed by `roundF64`, rounding to a 53-bit significand, nearest, ties to
even — the IEEE-754 binary64 rounding of the exact result, with unbounded
exponent range (overflow to infinity and subnormal underflow are outside the
range exercised by any theorem below).  Fractions are never normalised, so
every operation is structurally recursive and kernel-reducible. -/

/-- Fuel-driven floor of the base-2 logarithm: `log2F f n` is `⌊log₂ n⌋`
whenever `0 < n ≤ f`. -/
def log2F : Nat → Nat → Nat
  | 0, _ => 0
  | f + 1, n => if n ≤ 1 then 0 else log2F f (n / 2) + 1

/-- `⌊log₂ n⌋` for `n ≥ 1` (0 at 0). -/
def flog2Nat (n : Nat) : Nat := log2F n n

/-- An unnormalised fraction `num / den`.  All constructors used in this
development keep `den` positive. -/
structure Q where
  num : Int
  den : Nat
deriving DecidableEq

def Q.ofInt (n : Int) : Q := ⟨n, 1⟩

def Q.ofNat (n : Nat) : Q := ⟨n, 1⟩

def Q.zero : Q := ⟨0, 1⟩

def Q.mul (a b : Q) : Q := ⟨a.num * b.num, a.den * b.den⟩

def Q.add (a b : Q) : Q := ⟨a.num * b.den + b.num * a.den, a.den * b.den⟩

def Q.sub (a b : Q) : Q := ⟨a.num * b.den - b.num * a.den, a.den * b.den⟩

def Q.neg (a : Q) : Q := ⟨-a.num, a.den⟩

def Q.div (a b : Q) : Q :=
  if 0 ≤ b.num then ⟨a.num * b.den, a.den * b.num.natAbs⟩
  else ⟨-(a.num * b.den), a.den * b.num.natAbs⟩

/-- Strict order on fractions (correct for positive denominators). -/
def Q.blt (a b : Q) : Bool := a.num * b.den < b.num * a.den

/-- Value equality of fractions (correct for positive denominators). -/
def Q.beq (a b : Q) : Bool := a.num * b.den == b.num * a.den

/-- The rational value of a fraction. -/
def Q.toRat (a : Q) : ℚ := (a.num : ℚ) / (a.den : ℚ)

/-- `⌊a⌋` (floor division of numerator by denominator). -/
def Q.floorI (a : Q) : Int := a.num.fdiv a.den

/-- Truncation toward zero. -/
def Q.truncI (a : Q) : Int :=
  if a.blt Q.zero then -(Q.floorI a.neg) else Q.floorI a

/-- `2 ^ e` as a fraction, for `e : ℤ`. -/
def qpow2 (e : Int) : Q :=
  if 0 ≤ e then ⟨2 ^ e.toNat, 1⟩ else ⟨1, 2 ^ (-e).toNat⟩

/-- `⌊log₂ q⌋` for a positive fraction `q`. -/
def flog2 (q : Q) : Int :=
  let n := q.num.natAbs
  let d := q.den
  if d ≤ n then (flog2Nat (n / d) : Int)
  else
    let t := flog2Nat (d / n)
    if d ≤ n * 2 ^ t then -(t : Int) else -(t : Int) - 1

/-- Round a fraction to the nearest integer, ties to even. -/
def roundNE (q : Q) : Int :=
  let f := q.floorI
  let fr := q.sub (Q.ofInt f)
  if fr.blt ⟨1, 2⟩ then f
  else if Q.blt ⟨1, 2⟩ fr then f + 1
  else if f % 2 = 0 then f else f + 1

/-- Round a positive fraction to 53 significant bits, nearest, ties to even. -/
def roundPos (q : Q) : Q :=
  let e : Int := flog2 q - 52
  (Q.ofInt (roundNE (q.mul (qpow2 (-e))))).mul (qpow2 e)

/-- binary64 rounding of an exact rational value. -/
def roundF64 (q : Q) : Q :=
  if q.beq Q.zero then Q.zero
  else if q.blt Q.zero then (roundPos q.neg).neg
  else roundPos q

/-- `f64` addition: exact sum, then rounding. -/
def faddF (a b : Q) : Q := roundF64 (a.add b)

/-- `f64` subtraction: exact difference, then rounding. -/
def fsubF (a b : Q) : Q := roundF64 (a.sub b)

/-- `f64` multiplication: exact product, then rounding. -/
def fmulF (a b : Q) : Q := roundF64 (a.mul b)

/-- `f64` division: exact quotient, then rounding. -/
def fdivF (a b : Q) : Q := roundF64 (a.div b)

/-- Rust `%` on `f64` (C `fmod`): `a - b * trunc(a / b)`, computed exactly —
the IEEE result of `fmod` on representable operands is itself exactly
representable, so no rounding step occurs. -/
def fmodF (a b : Q) : Q := a.sub (b.mul (Q.ofInt (Q.truncI (a.div b))))

/-- Rust `u64 as f64`: round to nearest, ties to even. -/
def castF64 (n : Nat) : Q := roundF64 (Q.ofNat n)

/-- Rust `f64 as u8`: saturating cast — truncate toward zero, clamp to
`[0, 255]`. -/
def asU8 (q : Q) : Nat :=
  let t := q.truncI
  if t < 0 then 0 else if 255 < t then 255 else t.toNat

/-! ## The chaotic transform (`hybrid_chaos`, `apply_chaos`)

`sin`/`cos` values come from libm and are not specified bit-exactly by the
source; they are abstracted as parameters `sinF cosF : Q → Q` of the
embedding.  Everything else follows `src/main.rs` lines 106–143 operation by
operation. -/

/-- The `f64` literal `1.4` of the source (`a`). -/
def fLit14 : Q := roundF64 ⟨14, 10⟩

/-- The `f64` literal `0.3` of the source (`b`). -/
def fLit03 : Q := roundF64 ⟨3, 10⟩

/-- `std::f64::consts::PI`: the `f64` nearest π (hardcoded dyadic value). -/
def fPI : Q := ⟨884279719003555, 2 ^ 48⟩

/-- `std::f64::consts::E`: the `f64` nearest e (hardcoded dyadic value). -/
def fE : Q := ⟨6121026514868073, 2 ^ 51⟩

/-- The literal `8.987_551_792_3e16` (`c_squared`), exactly representable. -/
def fCsq : Q := ⟨89875517923000000, 1⟩

/-- One step of the chaotic map (`hybrid_chaos`, lines 106–126). -/
def hybrid_chaos (sinF cosF : Q → Q) (x y : Q) (byte : Nat) (forward : Bool) :
    Q × Q :=
  let m := fdivF (Q.ofNat byte) (Q.ofNat 255)
  let x1 := if forward then
      faddF (fsubF (Q.ofNat 1) (fmulF (fmulF fLit14 x) x)) y
    else
      fdivF (faddF (fsubF (Q.ofNat 1) y) (fmulF (fmulF fLit14 x) x)) fLit03
  let y1 := if forward then fmulF fLit03 x else x
  let x2 := faddF x1 (faddF (sinF (fmulF fPI x)) (cosF (fmulF fE y)))
  let x3 := fmulF x2 (faddF (Q.ofNat 1) (fdivF m fCsq))
  (x3, y1)

/-- The initial chaos state of `apply_chaos` (lines 131–132):
`x = (seed as f64 % 1e5) / 1e5`, `y = (seed.wrapping_mul(31) as f64 % 1e5) / 1e5`. -/
def chaosInit (seed : Nat) : Q × Q :=
  (fdivF (fmodF (castF64 seed) (Q.ofNat 100000)) (Q.ofNat 100000),
   fdivF (fmodF (castF64 (seed * 31 % 2 ^ 64)) (Q.ofNat 100000)) (Q.ofNat 100000))

/-- One pass of `apply_chaos` over the byte list, threading the chaos state
and XOR-ing each byte with the mixed coordinates (lines 135–140). -/
def chaosPass (sinF cosF : Q → Q) (forward : Bool) :
    Q × Q → List Nat → (Q × Q) × List Nat
  | st, [] => (st, [])
  | st, b :: rest =>
    let p := hybrid_chaos sinF cosF st.1 st.2 b forward
    let b1 := b ^^^ (asU8 (fmulF p.1 (Q.ofNat 256)) ^^^ asU8 (fmulF p.2 (Q.ofNat 256)))
    let r := chaosPass sinF cosF forward p rest
    (r.1, b1 :: r.2)

/-- `levels` passes of `chaosPass`; the state persists across passes. -/
def chaosLevels (sinF cosF : Q → Q) (forward : Bool) :
    Nat → Q × Q → List Nat → (Q × Q) × List Nat
  | 0, st, d => (st, d)
  | n + 1, st, d =>
    let r := chaosPass sinF cosF forward st d
    chaosLevels sinF cosF forward n r.1 r.2

/-- `apply_chaos(data, seed, levels, forward)` (lines 129–143). -/
def apply_chaos (sinF cosF : Q → Q) (data : List Nat) (seed : Nat)
    (levels : Nat) (forward : Bool) : List Nat :=
  (chaosLevels sinF cosF forward levels (chaosInit seed) data).2

/-! ## Seed derivation (`generate_seed`, lines 146–168)

The `sha2` streaming hasher is modelled by the byte string absorbed so far;
finishing hashes the absorbed bytes.  A file read at offset `o` with a 1 MiB
buffer yields `min(1 MiB, size − o)` bytes. -/

/-- Model of the `sha2` incremental digest: the bytes absorbed so far. -/
structure Sha256Hasher where
  absorbed : List Nat

def Sha256Hasher.new : Sha256Hasher := ⟨[]⟩

def Sha256Hasher.update (h : Sha256Hasher) (bs : List Nat) : Sha256Hasher :=
  ⟨h.absorbed ++ bs⟩

def Sha256Hasher.digest (h : Sha256Hasher) : List Nat := sha256 h.absorbed

/-- `generate_seed`: ten reads of up to 1 MiB at offsets `i * (size / 10)`,
folded into one running SHA-256; the first 8 digest bytes, little-endian. -/
def generate_seed (data : List Nat) : Nat :=
  let step := data.length / 10
  let hasher := (List.range 10).foldl
    (fun h i => h.update ((data.drop (i * step)).take (1024 * 1024)))
    Sha256Hasher.new
  u64_from_le (hasher.digest.take 8)

/-- The seed as the specification words it: ten evenly spaced windows of up
to 1 MiB each, one SHA-256 digest of the sampled content, first 8 bytes
interpreted as a little-endian unsigned 64-bit integer. -/
def generate_seed_spec (data : List Nat) : Nat :=
  let windows := (List.range 10).map
    (fun i => (data.drop (i * (data.length / 10))).take (1024 * 1024))
  u64_from_le ((sha256 windows.flatten).take 8)

/-! ## Archive container, embed/extract, key derivation -/

/-- `b"SIGIL-EMBED-"`. -/
def EMBED_MARKER : List Nat := [83, 73, 71, 73, 76, 45, 69, 77, 66, 69, 68, 45]

/-- `b"SIGIL-ARCHIVE\n"`. -/
def ARCHIVE_HEADER : List Nat :=
  [83, 73, 71, 73, 76, 45, 65, 82, 67, 72, 73, 86, 69, 10]

/-- `b"\n--SIGNATURE--\n"`. -/
def SIGNATURE_MARKER : List Nat :=
  [10, 45, 45, 83, 73, 71, 78, 65, 84, 85, 82, 69, 45, 45, 10]

/-- `b"\n--PUBKEY--\n"`. -/
def PUBKEY_MARKER : List Nat := [10, 45, 45, 80, 85, 66, 75, 69, 89, 45, 45, 10]

def SECRET_KEY_LENGTH : Nat := 32

def KEYPAIR_LENGTH : Nat := 64

/-- An ed25519 keypair as the code uses it: 32 secret bytes and 32 public
bytes. -/
structure Keypair where
  secret : List Nat
  pubkey : List Nat
deriving DecidableEq

/-- `Keypair::to_bytes`: secret bytes followed by public bytes. -/
def Keypair.toBytes (kp : Keypair) : List Nat := kp.secret ++ kp.pubkey

/-- `ed25519_dalek` v1 `Keypair::from_bytes`: errors unless given exactly
`KEYPAIR_LENGTH = 64` bytes; the curve-point validation of the public half is
abstracted as the parameter `pointValid`. -/
def keypair_from_bytes (pointValid : List Nat → Bool) (bytes : List Nat) :
    Except String Keypair :=
  if bytes.length ≠ KEYPAIR_LENGTH then Except.error "BytesLengthError"
  else if pointValid (bytes.drop SECRET_KEY_LENGTH) then
    Except.ok ⟨bytes.take SECRET_KEY_LENGTH, bytes.drop SECRET_KEY_LENGTH⟩
  else Except.error "PointDecompressionError"

/-- `sigil_derive` (lines 299–315): load the master keypair, hash
`secret ‖ label`, truncate to `SECRET_KEY_LENGTH`, and rebuild a keypair from
those bytes via `Keypair::from_bytes`. -/
def sigil_derive (pointValid : List Nat → Bool) (masterBytes label : List Nat) :
    Except String (List Nat) :=
  match keypair_from_bytes pointValid masterBytes with
  | Except.error _ => Except.error "Invalid master key"
  | Except.ok master =>
    let hash := sha256 (master.secret ++ label)
    let derived_secret := hash.take SECRET_KEY_LENGTH
    match keypair_from_bytes pointValid derived_secret with
    | Except.error _ => Except.error "Invalid derived key"
    | Except.ok derived => Except.ok derived.toBytes

/-- One `write_all` call: append bytes to the file contents. -/
def writeAll (file bytes : List Nat) : List Nat := file ++ bytes

/-- `sigil_commit` (lines 171–210): transform, compress, sign, then the six
`write_all` calls into a freshly created (empty) file.  `zstdEnc` and `sign`
abstract the `zstd` and ed25519 library calls. -/
def sigil_commit (sinF cosF : Q → Q) (zstdEnc : Int → List Nat → List Nat)
    (sign : Keypair → List Nat → List Nat) (data : List Nat) (kp : Keypair)
    (levels : Nat) (clevel : Int) : List Nat :=
  let seed := generate_seed data
  let transformed := apply_chaos sinF cosF data seed levels true
  let compressed := zstdEnc clevel transformed
  let signature := sign kp compressed
  let f0 : List Nat := []
  let f1 := writeAll f0 ARCHIVE_HEADER
  let f2 := writeAll f1 compressed
  let f3 := writeAll f2 SIGNATURE_MARKER
  let f4 := writeAll f3 signature
  let f5 := writeAll f4 PUBKEY_MARKER
  writeAll f5 kp.pubkey

/-- `sigil_recover` (lines 213–235).  Returns `none` for a Rust slice panic;
`some (ok none)` models the missing-header warning path (no output written);
`some (ok (some bytes))` is the recovered output.  The seed is re-derived
from whatever the output path currently holds (`outputContent`; `none` if
that file does not exist, which makes `generate_seed` fail).  Note the
hard-coded `3` transform levels. -/
def sigil_recover (sinF cosF : Q → Q)
    (zstdDec : List Nat → Except String (List Nat)) (archive : List Nat)
    (outputContent : Option (List Nat)) :
    Option (Except String (Option (List Nat))) :=
  if listStartsWith ARCHIVE_HEADER archive = false then some (Except.ok none)
  else
    match findPos SIGNATURE_MARKER archive with
    | none => some (Except.error "Invalid archive: missing signature marker")
    | some sigPos =>
      if sigPos < ARCHIVE_HEADER.length then none
      else
        let compressed := (archive.drop ARCHIVE_HEADER.length).take
          (sigPos - ARCHIVE_HEADER.length)
        match zstdDec compressed with
        | Except.error e => some (Except.error e)
        | Except.ok decompressed =>
          match outputContent with
          | none => some (Except.error "Failed to open input file")
          | some oc =>
            some (Except.ok (some
              (apply_chaos sinF cosF decompressed (generate_seed oc) 3 false)))

/-- Result of `sigil_verify` short of an error: the missing-header warning
path (which still returns `Ok`), or a fully verified archive. -/
inductive VerifyOutcome
  | missingHeader
  | verified
deriving DecidableEq

/-- `sigil_verify` (lines 267–296).  `none` models a Rust slice panic;
`sigParse`, `pkParse` and `verifySig` abstract `Signature::from_bytes`,
`PublicKey::from_bytes` and the ed25519 verification. -/
def sigil_verify (sigParse pkParse : List Nat → Bool)
    (verifySig : List Nat → List Nat → List Nat → Bool) (archive : List Nat) :
    Option (Except String VerifyOutcome) :=
  if listStartsWith ARCHIVE_HEADER archive = false then
    some (Except.ok VerifyOutcome.missingHeader)
  else
    match findPos SIGNATURE_MARKER archive with
    | none => some (Except.error "Invalid archive: missing signature marker")
    | some sigPos =>
      match findPos PUBKEY_MARKER archive with
      | none => some (Except.error "Invalid archive: missing pubkey marker")
      | some pubPos =>
        if sigPos < ARCHIVE_HEADER.length then none
        else if pubPos < sigPos + SIGNATURE_MARKER.length then none
        else
          let signedData := (archive.drop ARCHIVE_HEADER.length).take
            (sigPos - ARCHIVE_HEADER.length)
          let signatureBytes := (archive.drop (sigPos + SIGNATURE_MARKER.length)).take
            (pubPos - (sigPos + SIGNATURE_MARKER.length))
          let pubkeyBytes := archive.drop (pubPos + PUBKEY_MARKER.length)
          if sigParse signatureBytes = false then
            some (Except.error "Invalid signature")
          else if pkParse pubkeyBytes = false then
            some (Except.error "Invalid public key")
          else if verifySig pubkeyBytes signatureBytes signedData then
            some (Except.ok VerifyOutcome.verified)
          else some (Except.error "Signature verification failed")

/-- `sigil_embed` (lines 238–248): append marker, 8-byte little-endian
length, then the archive bytes to the host content. -/
def sigil_embed (base sigil : List Nat) : List Nat :=
  base ++ EMBED_MARKER ++ u64_to_le sigil.length ++ sigil

/-- Outcome of `sigil_extract`: the sliced-out archive bytes, or the
"No embedded Sigil data found" path. -/
inductive ExtractResult
  | found (archiveBytes : List Nat)
  | noData
deriving DecidableEq

/-- `sigil_extract` (lines 251–264): find the last marker occurrence, read
an 8-byte little-endian length, slice out that many bytes.  Both slice
expressions index without bounds checks, so `none` models the Rust panic
when the input is too short. -/
def sigil_extract (data : List Nat) : Option ExtractResult :=
  match rfindPos EMBED_MARKER data with
  | none => some ExtractResult.noData
  | some pos =>
    let lenPos := pos + EMBED_MARKER.length
    if data.length < lenPos + 8 then none
    else
      let len := u64_from_le ((data.drop lenPos).take 8)
      if data.length < lenPos + 8 + len then none
      else some (ExtractResult.found ((data.drop (lenPos + 8)).take len))

-- Equality of `Except` results is decidable (needed to evaluate concrete
-- runs of the pipeline).
deriving instance DecidableEq for Except

/-- A concrete pure stand-in for the libm `sin` parameter, used to
instantiate concrete runs of the pipeline: from `sin`'s argument `pi * x` it
recomputes `x` and returns `-(1.4 * x * x) / 0.3`, which keeps the inverse
transform's state small.  (Any pure function is an admissible model, since
the source leaves `sin` to the platform's libm.) -/
def sinModel : Q → Q := fun a =>
  let xr := fdivF a fPI
  Q.neg (fdivF (fmulF (fmulF fLit14 xr) xr) fLit03)

/-- A concrete pure stand-in for the libm `cos` parameter: constantly 0. -/
def cosModel : Q → Q := fun _ => Q.zero

/-! ## Helper lemmas -/

/-- Sanity check: the embedding really is SHA-256 (FIPS 180-4 vector for the
empty message). -/
theorem sha256_nil_vector :
    sha256 [] =
      [227, 176, 196, 66, 152, 252, 28, 20, 154, 251, 244, 200, 153,
       111, 185, 36, 39, 174, 65, 228, 100, 155, 147, 76, 164, 149, 153,
       27, 120, 82, 184, 85] := by decide

/-- Sanity check: FIPS 180-4 vector for `"abc"`. -/
theorem sha256_abc_vector :
    sha256 [97, 98, 99] =
      [186, 120, 22, 191, 143, 1, 207, 234, 65, 65, 64, 222, 93, 174,
       34, 35, 176, 3, 97, 163, 150, 23, 122, 156, 180, 16, 255, 97,
       242, 0, 21, 173] := by decide

/-- The SHA-256 digest always has 32 bytes. -/
theorem sha256_length (msg : List Nat) : (sha256 msg).length = 32 := by
  simp [sha256, sha256WordBytes]

/-- One chaos pass preserves the byte count. -/
theorem chaosPass_length (sinF cosF : Q → Q) (forward : Bool) (st : Q × Q)
    (d : List Nat) : (chaosPass sinF cosF forward st d).2.length = d.length := by
  induction d generalizing st with
  | nil => rfl
  | cons b rest ih => simp [chaosPass, ih]

/-- Iterated chaos passes preserve the byte count. -/
theorem chaosLevels_length (sinF cosF : Q → Q) (forward : Bool) (levels : Nat)
    (st : Q × Q) (d : List Nat) :
    (chaosLevels sinF cosF forward levels st d).2.length = d.length := by
  induction levels generalizing st d with
  | zero => rfl
  | succ n ih => simp [chaosLevels, ih, chaosPass_length]

/-- Folding hasher updates absorbs the concatenation of the windows. -/
theorem foldl_hasher_update (w : Nat → List Nat) (l : List Nat)
    (h : Sha256Hasher) :
    (l.foldl (fun h i => h.update (w i)) h).absorbed =
      h.absorbed ++ (l.map w).flatten := by
  induction l generalizing h with
  | nil => simp
  | cons a t ih =>
    rw [List.foldl_cons, ih]
    simp [Sha256Hasher.update, List.append_assoc]

/-- `sigil_commit` unfolded to the concatenation of its six segments. -/
theorem sigil_commit_eq (sinF cosF : Q → Q) (zstdEnc : Int → List Nat → List Nat)
    (sign : Keypair → List Nat → List Nat) (data : List Nat) (kp : Keypair)
    (levels : Nat) (clevel : Int) :
    sigil_commit sinF cosF zstdEnc sign data kp levels clevel =
      ARCHIVE_HEADER ++
        zstdEnc clevel (apply_chaos sinF cosF data (generate_seed data) levels true) ++
        SIGNATURE_MARKER ++
        sign kp (zstdEnc clevel
          (apply_chaos sinF cosF data (generate_seed data) levels true)) ++
        PUBKEY_MARKER ++ kp.pubkey := by
  simp [sigil_commit, writeAll, List.append_assoc]

/-- A list starts with its own prefix. -/
theorem listStartsWith_append (p rest : List Nat) :
    listStartsWith p (p ++ rest) = true := by
  simp [listStartsWith, List.take_left' rfl]

/-! ## Claim theorems -/

/-- **C9.** For every input byte sequence, seed, level count and direction
flag, `apply_chaos` returns an output of exactly the same length as its
input (for every model of the libm `sin`/`cos`). -/
theorem C9_apply_chaos_length (sinF cosF : Q → Q) (data : List Nat)
    (seed levels : Nat) (forward : Bool) :
    (apply_chaos sinF cosF data seed levels forward).length = data.length := by
  simp [apply_chaos, chaosLevels_length]

/-- **C3.** `generate_seed` equals its specification reading: it hashes the
concatenation of ten evenly spaced windows of up to 1 MiB each with a single
SHA-256 and returns the first 8 digest bytes as a little-endian `u64`; and it
is a deterministic function of the byte content alone — identical content
always yields the identical seed. -/
theorem C3_generate_seed_spec (data : List Nat) :
    generate_seed data = generate_seed_spec data ∧
      ∀ other, other = data → generate_seed other = generate_seed data := by
  constructor
  · simp [generate_seed, generate_seed_spec, Sha256Hasher.digest,
      foldl_hasher_update, Sha256Hasher.new]
  · intro other h
    rw [h]

/-- Witness for C3 at concrete content `[1, 2, 3]`. -/
theorem C3_generate_seed_spec_witness :
    generate_seed [1, 2, 3] = generate_seed_spec [1, 2, 3] ∧
      [1, 2, 3] = [1, 2, 3] ∧
      generate_seed [1, 2, 3] = generate_seed [1, 2, 3] :=
  ⟨(C3_generate_seed_spec [1, 2, 3]).1, rfl,
    (C3_generate_seed_spec [1, 2, 3]).2 [1, 2, 3] rfl⟩

/-- **C6.** Every archive written by `sigil_commit` is exactly the header
tag, the compressed transformed payload, the signature marker, the signature
bytes, the pubkey marker and the public key bytes, in this order and with no
other bytes between or after the segments. -/
theorem C6_commit_layout (sinF cosF : Q → Q) (zstdEnc : Int → List Nat → List Nat)
    (sign : Keypair → List Nat → List Nat) (data : List Nat) (kp : Keypair)
    (levels : Nat) (clevel : Int) :
    sigil_commit sinF cosF zstdEnc sign data kp levels clevel =
      ARCHIVE_HEADER ++
        zstdEnc clevel (apply_chaos sinF cosF data (generate_seed data) levels true) ++
        SIGNATURE_MARKER ++
        sign kp (zstdEnc clevel
          (apply_chaos sinF cosF data (generate_seed data) levels true)) ++
        PUBKEY_MARKER ++ kp.pubkey :=
  sigil_commit_eq sinF cosF zstdEnc sign data kp levels clevel

/-- **C7.** On input whose first bytes are not the archive header,
`sigil_verify` and `sigil_recover` report the missing header and return
success (`Ok`) without aborting; on input that has the header but no
signature-marker occurrence anywhere, both return the malformed-archive
error "Invalid archive: missing signature marker" rather than succeeding. -/
theorem C7_header_and_marker_handling (sigParse pkParse : List Nat → Bool)
    (verifySig : List Nat → List Nat → List Nat → Bool) (sinF cosF : Q → Q)
    (zstdDec : List Nat → Except String (List Nat)) (oc : Option (List Nat))
    (archive : List Nat) :
    (listStartsWith ARCHIVE_HEADER archive = false →
      sigil_verify sigParse pkParse verifySig archive =
        some (Except.ok VerifyOutcome.missingHeader) ∧
      sigil_recover sinF cosF zstdDec archive oc = some (Except.ok none)) ∧
    (listStartsWith ARCHIVE_HEADER archive = true →
      findPos SIGNATURE_MARKER archive = none →
      sigil_verify sigParse pkParse verifySig archive =
        some (Except.error "Invalid archive: missing signature marker") ∧
      sigil_recover sinF cosF zstdDec archive oc =
        some (Except.error "Invalid archive: missing signature marker")) := by
  constructor
  · intro h
    constructor
    · simp [sigil_verify, h]
    · simp [sigil_recover, h]
  · intro h1 h2
    constructor
    · simp [sigil_verify, h1, h2]
    · simp [sigil_recover, h1, h2]

/-- Witness for C7: `[0]` has no header (warning + `Ok`), and the bare
header bytes have a header but no signature marker (error). -/
theorem C7_header_and_marker_handling_witness :
    listStartsWith ARCHIVE_HEADER [0] = false ∧
    sigil_verify (fun _ => true) (fun _ => true) (fun _ _ _ => true) [0] =
      some (Except.ok VerifyOutcome.missingHeader) ∧
    sigil_recover (fun _ => Q.zero) (fun _ => Q.zero) Except.ok [0] none =
      some (Except.ok none) ∧
    listStartsWith ARCHIVE_HEADER ARCHIVE_HEADER = true ∧
    findPos SIGNATURE_MARKER ARCHIVE_HEADER = none ∧
    sigil_verify (fun _ => true) (fun _ => true) (fun _ _ _ => true)
        ARCHIVE_HEADER =
      some (Except.error "Invalid archive: missing signature marker") ∧
    sigil_recover (fun _ => Q.zero) (fun _ => Q.zero) Except.ok ARCHIVE_HEADER
        none =
      some (Except.error "Invalid archive: missing signature marker") := by
  refine ⟨by decide, ?_, ?_, by decide, by decide, ?_, ?_⟩
  · exact ((C7_header_and_marker_handling (fun _ => true) (fun _ => true)
      (fun _ _ _ => true) (fun _ => Q.zero) (fun _ => Q.zero) Except.ok none
      [0]).1 (by decide)).1
  · exact ((C7_header_and_marker_handling (fun _ => true) (fun _ => true)
      (fun _ _ _ => true) (fun _ => Q.zero) (fun _ => Q.zero) Except.ok none
      [0]).1 (by decide)).2
  · exact ((C7_header_and_marker_handling (fun _ => true) (fun _ => true)
      (fun _ _ _ => true) (fun _ => Q.zero) (fun _ => Q.zero) Except.ok none
      ARCHIVE_HEADER).2 (by decide) (by decide)).1
  · exact ((C7_header_and_marker_handling (fun _ => true) (fun _ => true)
      (fun _ _ _ => true) (fun _ => Q.zero) (fun _ => Q.zero) Except.ok none
      ARCHIVE_HEADER).2 (by decide) (by decide)).2

/-- `u64_to_le` always yields 8 bytes. -/
theorem u64_to_le_length (n : Nat) : (u64_to_le n).length = 8 := by
  simp [u64_to_le]

/-- Little-endian 8-byte roundtrip for values below `2^64`. -/
theorem u64_roundtrip (n : Nat) (h : n < 2 ^ 64) :
    u64_from_le (u64_to_le n) = n := by
  have e : u64_to_le n =
      [n / 1 % 256, n / 256 % 256, n / 65536 % 256, n / 16777216 % 256,
       n / 4294967296 % 256, n / 1099511627776 % 256,
       n / 281474976710656 % 256, n / 72057594037927936 % 256] := rfl
  rw [e]
  simp only [u64_from_le, List.foldr]
  omega

/-- **C10 counterexample.**  The claim says `sigil_extract` returns an error
when fewer than 8 bytes follow the last marker occurrence.  On the input
consisting of the bare embed marker (0 bytes follow it), the code instead
evaluates `&data[len_pos..len_pos + 8]` with `len_pos + 8` out of bounds and
panics — modelled by `none`, which is not an error return. -/
theorem C10_counterexample : sigil_extract EMBED_MARKER = none := by decide

/-- **C10 (amended).**  For every input in which the embed marker occurs, if
fewer than 8 bytes follow the last marker occurrence, or the decoded 8-byte
length exceeds the bytes remaining after the length field, `sigil_extract`
panics on an out-of-bounds slice (modelled `none`) rather than returning an
error. -/
theorem C10_extract_oob_panics (data : List Nat) (pos : Nat)
    (hfind : rfindPos EMBED_MARKER data = some pos)
    (hoob : data.length < pos + EMBED_MARKER.length + 8 ∨
      data.length < pos + EMBED_MARKER.length + 8 +
        u64_from_le ((data.drop (pos + EMBED_MARKER.length)).take 8)) :
    sigil_extract data = none := by
  unfold sigil_extract
  rw [hfind]
  by_cases h1 : data.length < pos + EMBED_MARKER.length + 8
  · simp only [h1, if_true]
  · rcases hoob with h | h
    · exact absurd h h1
    · simp only [h1, if_false, h, if_true]

/-- Witness for the amended C10: marker followed by only 7 bytes. -/
theorem C10_extract_oob_panics_witness :
    rfindPos EMBED_MARKER (EMBED_MARKER ++ [0, 0, 0, 0, 0, 0, 0]) = some 0 ∧
    (EMBED_MARKER ++ [0, 0, 0, 0, 0, 0, 0]).length <
      0 + EMBED_MARKER.length + 8 ∧
    sigil_extract (EMBED_MARKER ++ [0, 0, 0, 0, 0, 0, 0]) = none :=
  ⟨by decide, by decide,
    C10_extract_oob_panics (EMBED_MARKER ++ [0, 0, 0, 0, 0, 0, 0]) 0 (by decide)
      (Or.inl (by decide))⟩

/-- **C4 counterexample.**  The claim says extraction after embedding returns
exactly the archive bytes, for every host and archive.  Embedding the archive
`A = EMBED_MARKER` into the empty host makes the *last* marker occurrence the
copy inside `A` itself; extraction then reads a length past the end of the
file and panics (modelled `none`) instead of returning `A`. -/
theorem C4_counterexample : sigil_extract (sigil_embed [] EMBED_MARKER) = none := by
  decide

/-- **C4 (amended).**  `sigil_embed` appends the fixed marker, the 8-byte
little-endian length of `A`, then `A`; and whenever the appended marker is
still the *last* occurrence of the marker in the embedded output (in
particular whenever no later occurrence arises inside the length field or
`A`), `sigil_extract` returns exactly `A`. -/
theorem C4_embed_extract (base A : List Nat) (h64 : A.length < 2 ^ 64)
    (hlast : rfindPos EMBED_MARKER (sigil_embed base A) = some base.length) :
    sigil_extract (sigil_embed base A) = some (ExtractResult.found A) := by
  have hassoc : sigil_embed base A =
      base ++ (EMBED_MARKER ++ (u64_to_le A.length ++ A)) := by
    simp [sigil_embed, List.append_assoc]
  have hdrop12 : (sigil_embed base A).drop (base.length + EMBED_MARKER.length) =
      u64_to_le A.length ++ A := by
    rw [hassoc, ← List.drop_drop, List.drop_left, List.drop_left' rfl]
  have hdrop20 :
      (sigil_embed base A).drop (base.length + EMBED_MARKER.length + 8) = A := by
    rw [← List.drop_drop, hdrop12, List.drop_left' (u64_to_le_length _)]
  have hlen : (sigil_embed base A).length =
      base.length + EMBED_MARKER.length + 8 + A.length := by
    rw [hassoc]
    simp [u64_to_le_length]
    omega
  have htake : ((sigil_embed base A).drop
      (base.length + EMBED_MARKER.length)).take 8 = u64_to_le A.length := by
    rw [hdrop12, List.take_left' (u64_to_le_length _)]
  unfold sigil_extract
  rw [hlast]
  dsimp only
  rw [if_neg (by omega)]
  rw [htake, u64_roundtrip _ h64]
  rw [if_neg (by omega)]
  rw [hdrop20, List.take_length]

/-- Witness for the amended C4 at host `[1, 2, 3]`, archive `[9, 9]`. -/
theorem C4_embed_extract_witness :
    ([9, 9] : List Nat).length < 2 ^ 64 ∧
    rfindPos EMBED_MARKER (sigil_embed [1, 2, 3] [9, 9]) =
      some ([1, 2, 3] : List Nat).length ∧
    sigil_extract (sigil_embed [1, 2, 3] [9, 9]) =
      some (ExtractResult.found [9, 9]) :=
  ⟨by decide, by decide, C4_embed_extract [1, 2, 3] [9, 9] (by decide) (by decide)⟩

/-- **C5.**  The claim says key derivation succeeds; in fact it always fails:
whenever the master keypair loads successfully, `sigil_derive` hashes
`secret ‖ label` to 32 bytes and hands those 32 bytes to
`Keypair::from_bytes`, which requires exactly 64, so every call returns the
invalid-derived-key error.  (The claim's described derivation never
completes for any master and label.) -/
theorem C5_derive_always_fails (pointValid : List Nat → Bool)
    (masterBytes label : List Nat) (master : Keypair)
    (h : keypair_from_bytes pointValid masterBytes = Except.ok master) :
    sigil_derive pointValid masterBytes label =
      Except.error "Invalid derived key" := by
  unfold sigil_derive
  rw [h]
  dsimp only
  have hlen :
      ((sha256 (master.secret ++ label)).take SECRET_KEY_LENGTH).length = 32 := by
    simp [sha256_length, SECRET_KEY_LENGTH]
  have hinner : keypair_from_bytes pointValid
      ((sha256 (master.secret ++ label)).take SECRET_KEY_LENGTH) =
      Except.error "BytesLengthError" := by
    unfold keypair_from_bytes
    rw [if_pos (by simp [hlen, KEYPAIR_LENGTH])]
  rw [hinner]

/-- Witness for C5: the all-zero 64-byte master key (accepted by a point
validator that accepts everything) and label `"a"`. -/
theorem C5_derive_always_fails_witness :
    keypair_from_bytes (fun _ => true) (List.replicate 64 0) =
      Except.ok ⟨List.replicate 32 0, List.replicate 32 0⟩ ∧
    sigil_derive (fun _ => true) (List.replicate 64 0) [97] =
      Except.error "Invalid derived key" :=
  ⟨rfl,
    C5_derive_always_fails (fun _ => true) (List.replicate 64 0) [97]
      ⟨List.replicate 32 0, List.replicate 32 0⟩ rfl⟩

/-- `log2F f n` is the floor of `log₂ n` whenever the fuel is sufficient. -/
theorem log2F_spec : ∀ f n : Nat, 0 < n → n ≤ f →
    2 ^ log2F f n ≤ n ∧ n < 2 ^ (log2F f n + 1) := by
  intro f
  induction f with
  | zero => intro n h1 h2; omega
  | succ f ih =>
    intro n h1 h2
    unfold log2F
    by_cases h : n ≤ 1
    · have hn1 : n = 1 := by omega
      subst hn1
      simp
    · rw [if_neg h]
      have hd : 0 < n / 2 := Nat.div_pos (by omega) (by omega)
      have hle : n / 2 ≤ f := by omega
      have hih := ih (n / 2) hd hle
      have e1 : 2 ^ (log2F f (n / 2) + 1) = 2 * 2 ^ log2F f (n / 2) := by ring
      have e2 : 2 ^ (log2F f (n / 2) + 1 + 1) = 2 * 2 ^ (log2F f (n / 2) + 1) := by
        ring
      omega

/-- Rounding an integer-valued fraction with denominator 1 is the identity. -/
theorem roundNE_int (m : Int) : roundNE ⟨m, 1⟩ = m := by
  unfold roundNE Q.floorI Q.sub Q.ofInt Q.blt
  dsimp only
  rw [Nat.cast_one, Int.fdiv_one]
  rw [if_pos (by simp)]

/-- Scaling the left argument of `Q.beq` by a positive factor changes
nothing. -/
theorem Q.beq_scaleLeft (c : Nat) (hc : 0 < c) (a b : Q) :
    Q.beq ⟨(c : Int) * a.num, c * a.den⟩ b = Q.beq a b := by
  unfold Q.beq
  dsimp only
  rw [Bool.eq_iff_iff]
  simp only [beq_iff_eq]
  have hcz : (c : Int) ≠ 0 := Int.natCast_ne_zero.mpr hc.ne'
  rw [show ((c : Int) * a.num * b.den) = (c : Int) * (a.num * b.den) by ring,
      show (b.num * ((c * a.den : Nat) : Int)) = (c : Int) * (b.num * a.den) by
        push_cast; ring,
      mul_right_inj' hcz]

/-- Scaling the left argument of `Q.blt` by a positive factor changes
nothing. -/
theorem Q.blt_scaleLeft (c : Nat) (hc : 0 < c) (a b : Q) :
    Q.blt ⟨(c : Int) * a.num, c * a.den⟩ b = Q.blt a b := by
  unfold Q.blt
  dsimp only
  rw [Bool.eq_iff_iff, decide_eq_true_eq, decide_eq_true_eq]
  have hcz : (0 : Int) < c := Int.natCast_pos.mpr hc
  rw [show ((c : Int) * a.num * b.den) = (c : Int) * (a.num * b.den) by ring,
      show (b.num * ((c * a.den : Nat) : Int)) = (c : Int) * (b.num * a.den) by
        push_cast; ring]
  exact mul_lt_mul_left hcz

/-- Scaling the right argument of `Q.blt` by a positive factor changes
nothing. -/
theorem Q.blt_scaleRight (c : Nat) (hc : 0 < c) (a b : Q) :
    Q.blt a ⟨(c : Int) * b.num, c * b.den⟩ = Q.blt a b := by
  unfold Q.blt
  dsimp only
  rw [Bool.eq_iff_iff, decide_eq_true_eq, decide_eq_true_eq]
  have hcz : (0 : Int) < c := Int.natCast_pos.mpr hc
  rw [show (a.num * ((c * b.den : Nat) : Int)) = (c : Int) * (a.num * b.den) by
        push_cast; ring,
      show ((c : Int) * b.num * a.den) = (c : Int) * (b.num * a.den) by ring]
  exact mul_lt_mul_left hcz

/-- Scaling a fraction by a positive factor does not change its floor. -/
theorem floorI_scale (c : Nat) (hc : 0 < c) (q : Q) :
    Q.floorI ⟨(c : Int) * q.num, c * q.den⟩ = Q.floorI q := by
  unfold Q.floorI
  dsimp only
  push_cast
  rw [Int.fdiv_eq_ediv _ (by positivity), Int.fdiv_eq_ediv _ (by positivity),
      Int.mul_ediv_mul_of_pos _ _ (by exact_mod_cast hc)]

/-- Scaling a fraction by a positive factor does not change `flog2`. -/
theorem flog2_scale (c : Nat) (hc : 0 < c) (q : Q) :
    flog2 ⟨(c : Int) * q.num, c * q.den⟩ = flog2 q := by
  unfold flog2
  dsimp only
  rw [Int.natAbs_mul, Int.natAbs_ofNat]
  rw [Nat.mul_div_mul_left _ _ hc, Nat.mul_div_mul_left _ _ hc]
  by_cases h1 : q.den ≤ q.num.natAbs
  · rw [if_pos h1, if_pos (Nat.mul_le_mul_left c h1)]
  · rw [if_neg h1, if_neg (fun hx => h1 (Nat.le_of_mul_le_mul_left hx hc))]
    by_cases h2 : q.den ≤ q.num.natAbs * 2 ^ flog2Nat (q.den / q.num.natAbs)
    · rw [if_pos h2, if_pos (by rw [mul_assoc]; exact Nat.mul_le_mul_left c h2)]
    · rw [if_neg h2, if_neg (fun hx => h2 (by
        rw [mul_assoc] at hx
        exact Nat.le_of_mul_le_mul_left hx hc))]

/-- Scaling a fraction by a positive factor does not change `roundNE`. -/
theorem roundNE_scale (c : Nat) (hc : 0 < c) (q : Q) :
    roundNE ⟨(c : Int) * q.num, c * q.den⟩ = roundNE q := by
  unfold roundNE
  dsimp only
  rw [floorI_scale c hc q]
  have hfr : Q.sub ⟨(c : Int) * q.num, c * q.den⟩ (Q.ofInt (Q.floorI q)) =
      ⟨(c : Int) * (Q.sub q (Q.ofInt (Q.floorI q))).num,
       c * (Q.sub q (Q.ofInt (Q.floorI q))).den⟩ := by
    simp only [Q.sub, Q.ofInt]
    rw [Q.mk.injEq]
    constructor
    · push_cast; ring
    · ring
  rw [hfr, Q.blt_scaleLeft c hc, Q.blt_scaleRight c hc]

/-- Scaling a positive fraction by a positive factor does not change
`roundPos`. -/
theorem roundPos_scale (c : Nat) (hc : 0 < c) (q : Q) :
    roundPos ⟨(c : Int) * q.num, c * q.den⟩ = roundPos q := by
  unfold roundPos
  dsimp only
  rw [flog2_scale c hc q]
  have harg : Q.mul ⟨(c : Int) * q.num, c * q.den⟩ (qpow2 (-(flog2 q - 52))) =
      ⟨(c : Int) * (Q.mul q (qpow2 (-(flog2 q - 52)))).num,
       c * (Q.mul q (qpow2 (-(flog2 q - 52)))).den⟩ := by
    simp only [Q.mul]
    rw [Q.mk.injEq]
    constructor
    · ring
    · ring
  rw [harg, roundNE_scale c hc]

/-- Scaling a fraction by a positive factor does not change its binary64
rounding: `roundF64` depends only on the represented value. -/
theorem roundF64_scale (c : Nat) (hc : 0 < c) (q : Q) :
    roundF64 ⟨(c : Int) * q.num, c * q.den⟩ = roundF64 q := by
  unfold roundF64
  rw [Q.beq_scaleLeft c hc, Q.blt_scaleLeft c hc]
  by_cases h1 : Q.beq q Q.zero = true
  · rw [if_pos h1, if_pos h1]
  · rw [if_neg h1, if_neg h1]
    by_cases h2 : Q.blt q Q.zero = true
    · rw [if_pos h2, if_pos h2]
      have hneg : Q.neg ⟨(c : Int) * q.num, c * q.den⟩ =
          ⟨(c : Int) * (Q.neg q).num, c * (Q.neg q).den⟩ := by
        simp only [Q.neg]
        rw [Q.mk.injEq]
        exact ⟨by ring, rfl⟩
      rw [hneg, roundPos_scale c hc]
    · rw [if_neg h2, if_neg h2]
      exact roundPos_scale c hc q

/-- For `0 < n < 2^53` the `u64 → f64` cast is exact: `castF64 n` is a
(scaled) representation of the integer `n` itself. -/
theorem castF64_small (n : Nat) (h0 : 0 < n) (h53 : n < 2 ^ 53) :
    ∃ c : Nat, 0 < c ∧ castF64 n = ⟨(c : Int) * n, c * 1⟩ := by
  have hspec := log2F_spec n n h0 le_rfl
  have ht52 : flog2Nat n ≤ 52 := by
    by_contra hgt
    push_neg at hgt
    have hpow : 2 ^ 53 ≤ 2 ^ flog2Nat n := Nat.pow_le_pow_right (by norm_num) hgt
    unfold flog2Nat at hpow
    omega
  refine ⟨2 ^ (52 - flog2Nat n), Nat.pos_pow_of_pos _ (by norm_num), ?_⟩
  unfold castF64 roundF64
  rw [if_neg (by simp [Q.beq, Q.ofNat, Q.zero, beq_iff_eq]; omega)]
  rw [if_neg (by simp [Q.blt, Q.ofNat, Q.zero, decide_eq_true_eq])]
  unfold roundPos
  dsimp only
  have hflog : flog2 (Q.ofNat n) = (flog2Nat n : Int) := by
    unfold flog2 Q.ofNat
    dsimp only
    rw [Int.natAbs_ofNat]
    rw [if_pos (show (1 : Nat) ≤ n from h0), Nat.div_one]
  rw [hflog]
  have hqp : qpow2 (-((flog2Nat n : Int) - 52)) = ⟨((2 ^ (52 - flog2Nat n) : Nat) : Int), 1⟩ := by
    unfold qpow2
    rw [if_pos (by omega)]
    rw [Q.mk.injEq]
    constructor
    · push_cast
      congr 1
      omega
    · rfl
  rw [hqp]
  have hmul : Q.mul (Q.ofNat n) ⟨((2 ^ (52 - flog2Nat n) : Nat) : Int), 1⟩ =
      ⟨((n * 2 ^ (52 - flog2Nat n) : Nat) : Int), 1⟩ := by
    simp only [Q.mul, Q.ofNat]
    rw [Q.mk.injEq]
    constructor
    · push_cast; ring
    · rfl
  rw [hmul, roundNE_int]
  have hqp2 : qpow2 ((flog2Nat n : Int) - 52) = ⟨1, 2 ^ (52 - flog2Nat n)⟩ := by
    unfold qpow2
    by_cases h : (0 : Int) ≤ (flog2Nat n : Int) - 52
    · have h52 : flog2Nat n = 52 := by omega
      rw [if_pos h, Q.mk.injEq]
      refine ⟨by norm_num [h52], by norm_num [h52]⟩
    · rw [if_neg h, Q.mk.injEq]
      constructor
      · rfl
      · congr 1
        omega
  rw [hqp2]
  simp only [Q.ofInt, Q.mul]
  rw [Q.mk.injEq]
  constructor
  · push_cast; ring
  · ring

/-- `fmod` of a scaled integer representation by a positive integer modulus:
exactly the integer remainder, in the same scaling. -/
theorem fmodF_scaled_nat (c s m : Nat) (hc : 0 < c) (hm : 0 < m) :
    fmodF ⟨(c : Int) * s, c * 1⟩ ⟨(m : Int), 1⟩ = ⟨(c : Int) * (s % m), c * 1⟩ := by
  unfold fmodF
  have hdiv : Q.div ⟨(c : Int) * s, c * 1⟩ ⟨(m : Int), 1⟩ =
      ⟨(c : Int) * s * 1, c * 1 * m⟩ := by
    unfold Q.div
    dsimp only
    rw [if_pos (by positivity), Int.natAbs_ofNat, Q.mk.injEq]
    exact ⟨by norm_num, rfl⟩
  rw [hdiv]
  have htr : Q.truncI ⟨(c : Int) * s * 1, c * 1 * m⟩ = ((s / m : Nat) : Int) := by
    unfold Q.truncI
    rw [if_neg (by
      simp only [Q.blt, Q.zero, decide_eq_true_eq, not_lt, mul_one, zero_mul,
        Bool.not_eq_true]
      positivity)]
    unfold Q.floorI
    dsimp only
    rw [Int.fdiv_eq_ediv _ (by positivity)]
    have h1 : ((c : Int) * s * 1) = (c : Int) * ((s : Int) * 1) := by ring
    have h2 : (((c * 1 * m : Nat)) : Int) = (c : Int) * ((m : Int) * 1) := by
      push_cast; ring
    rw [h1, h2, Int.mul_ediv_mul_of_pos _ _ (by exact_mod_cast hc), mul_one,
      mul_one]
    exact_mod_cast (Int.ofNat_ediv s m).symm
  rw [htr]
  unfold Q.sub Q.mul Q.ofInt
  dsimp only
  rw [Q.mk.injEq]
  have hsm : (s : Int) = (m : Int) * ((s / m : Nat) : Int) + ((s % m : Nat) : Int) := by
    exact_mod_cast (Nat.div_add_mod s m).symm
  constructor
  · push_cast
    push_cast at hsm
    linear_combination (c : Int) * hsm
  · ring

/-- Each component of the chaos-state initialisation equals the mod-first
computation, provided the seed value fits in 53 bits (so the `u64 → f64`
cast is exact). -/
theorem chaosInit_component (s : Nat) (hs : s < 2 ^ 53) :
    fdivF (fmodF (castF64 s) (Q.ofNat 100000)) (Q.ofNat 100000) =
      fdivF (Q.ofNat (s % 100000)) (Q.ofNat 100000) := by
  rcases Nat.eq_zero_or_pos s with h0 | h0
  · subst h0
    decide
  · obtain ⟨c, hc, hcast⟩ := castF64_small s h0 hs
    have h1e5 : Q.ofNat 100000 = (⟨((100000 : Nat) : Int), 1⟩ : Q) := rfl
    rw [h1e5, hcast, fmodF_scaled_nat c s 100000 hc (by norm_num)]
    unfold fdivF
    refine Eq.trans ?_ (roundF64_scale c hc
      (Q.div (Q.ofNat (s % 100000)) ⟨((100000 : Nat) : Int), 1⟩))
    congr 1
    unfold Q.div Q.ofNat
    dsimp only
    rw [if_pos (by positivity), if_pos (by positivity)]
    dsimp only
    rw [Q.mk.injEq]
    constructor
    · push_cast; ring
    · ring

/-- **C8 counterexample.**  The claim asserts the initial
`x = (seed mod 100000) / 100000` *including* for seeds too large for an
exact 64-bit-float representation.  At `seed = 2^64 − 1` the code first
rounds the seed to the nearest `f64`, namely `2^64`, whose residue is 51616
rather than 51615, so `x` is not `51615 / 100000` (nor any rounding of it). -/
theorem C8_counterexample :
    (chaosInit (2 ^ 64 - 1)).1.toRat ≠ (51615 : ℚ) / 100000 := by
  have h : (chaosInit (2 ^ 64 - 1)).1 =
      ⟨4649155967327110, 9007199254740992⟩ := by decide
  rw [h]
  unfold Q.toRat
  norm_num

/-- **C8 (amended).**  The chaos transform initialises
`x = ((seed as f64) mod 100000) / 100000` and
`y = ((seed·31 mod 2^64 as f64) mod 100000) / 100000` in `f64` arithmetic;
whenever `seed` and `seed·31 mod 2^64` are below `2^53` (so the casts are
exact) this coincides with the claimed mod-first formulas, evaluated in
`f64` (i.e. with the final division correctly rounded). -/
theorem C8_chaosInit_amended (seed : Nat) (h1 : seed < 2 ^ 53)
    (h2 : seed * 31 % 2 ^ 64 < 2 ^ 53) :
    chaosInit seed =
      (fdivF (Q.ofNat (seed % 100000)) (Q.ofNat 100000),
       fdivF (Q.ofNat (seed * 31 % 2 ^ 64 % 100000)) (Q.ofNat 100000)) := by
  unfold chaosInit
  rw [chaosInit_component seed h1, chaosInit_component _ h2]

/-- Witness for the amended C8 at seed 12345. -/
theorem C8_chaosInit_amended_witness :
    12345 < 2 ^ 53 ∧ 12345 * 31 % 2 ^ 64 < 2 ^ 53 ∧
    chaosInit 12345 =
      (fdivF (Q.ofNat 12345) (Q.ofNat 100000),
       fdivF (Q.ofNat 82695) (Q.ofNat 100000)) :=
  ⟨by decide, by decide, C8_chaosInit_amended 12345 (by decide) (by decide)⟩

/-- **C2 counterexample.**  The claim says recovery applies the inverse
transform with the level count used at commit time, for all `L`.  Committing
the one-byte input `[42]` with `L = 1` (identity compression, empty
signature) and recovering it — with the output path already holding the
matching content `[42]`, so the re-derived seed agrees — does *not* produce
the 1-level inverse of the decompressed payload: the code hard-codes 3
levels. -/
theorem C2_counterexample :
    sigil_recover sinModel cosModel Except.ok
        (sigil_commit sinModel cosModel (fun _ d => d) (fun _ _ => []) [42]
          ⟨[], []⟩ 1 1) (some [42]) ≠
      some (Except.ok (some (apply_chaos sinModel cosModel
        (apply_chaos sinModel cosModel [42] (generate_seed [42]) 1 true)
        (generate_seed [42]) 1 false))) := by decide

/-- **C2 (amended).**  For every archive produced by `sigil_commit` with
level count `L`, `sigil_recover` applies the inverse chaos transform with
the fixed default level count 3, regardless of `L` — matching the
commit-time count only when `L = 3`.  The hypotheses state that the
compression round-trips on this payload and that the signature marker's
first occurrence in the archive is the one `sigil_commit` wrote. -/
theorem C2_recover_uses_three_levels (sinF cosF : Q → Q)
    (zstdEnc : Int → List Nat → List Nat)
    (zstdDec : List Nat → Except String (List Nat))
    (sign : Keypair → List Nat → List Nat) (data : List Nat) (kp : Keypair)
    (levels : Nat) (clevel : Int) (oc : List Nat)
    (hz : zstdDec (zstdEnc clevel
        (apply_chaos sinF cosF data (generate_seed data) levels true)) =
      Except.ok (apply_chaos sinF cosF data (generate_seed data) levels true))
    (hm : findPos SIGNATURE_MARKER
        (sigil_commit sinF cosF zstdEnc sign data kp levels clevel) =
      some (ARCHIVE_HEADER.length + (zstdEnc clevel
        (apply_chaos sinF cosF data (generate_seed data) levels true)).length)) :
    sigil_recover sinF cosF zstdDec
        (sigil_commit sinF cosF zstdEnc sign data kp levels clevel) (some oc) =
      some (Except.ok (some (apply_chaos sinF cosF
        (apply_chaos sinF cosF data (generate_seed data) levels true)
        (generate_seed oc) 3 false))) := by
  have hcommit := sigil_commit_eq sinF cosF zstdEnc sign data kp levels clevel
  have hassoc : sigil_commit sinF cosF zstdEnc sign data kp levels clevel =
      ARCHIVE_HEADER ++ (zstdEnc clevel
        (apply_chaos sinF cosF data (generate_seed data) levels true) ++
        (SIGNATURE_MARKER ++ (sign kp (zstdEnc clevel
          (apply_chaos sinF cosF data (generate_seed data) levels true)) ++
          (PUBKEY_MARKER ++ kp.pubkey)))) := by
    rw [hcommit]
    simp [List.append_assoc]
  have hstart : listStartsWith ARCHIVE_HEADER
      (sigil_commit sinF cosF zstdEnc sign data kp levels clevel) = true := by
    rw [hassoc]
    exact listStartsWith_append _ _
  have hslice : (List.drop ARCHIVE_HEADER.length
      (sigil_commit sinF cosF zstdEnc sign data kp levels clevel)).take
        (ARCHIVE_HEADER.length + (zstdEnc clevel
          (apply_chaos sinF cosF data (generate_seed data) levels true)).length -
          ARCHIVE_HEADER.length) =
      zstdEnc clevel (apply_chaos sinF cosF data (generate_seed data) levels true) := by
    rw [hassoc, List.drop_left, Nat.add_sub_cancel_left,
      List.take_left' rfl]
  unfold sigil_recover
  rw [hstart]
  rw [if_neg (by simp)]
  rw [hm]
  dsimp only
  rw [if_neg (by omega)]
  rw [hslice, hz]

/-- Witness for the amended C2: the concrete `L = 1` commit of `[42]` is
recovered with 3 inverse levels. -/
theorem C2_recover_uses_three_levels_witness :
    ((Except.ok (apply_chaos sinModel cosModel [42] (generate_seed [42]) 1 true) :
        Except String (List Nat)) =
      Except.ok (apply_chaos sinModel cosModel [42] (generate_seed [42]) 1 true)) ∧
    findPos SIGNATURE_MARKER
        (sigil_commit sinModel cosModel (fun _ d => d) (fun _ _ => []) [42]
          ⟨[], []⟩ 1 1) =
      some (ARCHIVE_HEADER.length +
        ((fun _ d => d : Int → List Nat → List Nat) 1
          (apply_chaos sinModel cosModel [42] (generate_seed [42]) 1 true)).length) ∧
    sigil_recover sinModel cosModel Except.ok
        (sigil_commit sinModel cosModel (fun _ d => d) (fun _ _ => []) [42]
          ⟨[], []⟩ 1 1) (some [42]) =
      some (Except.ok (some (apply_chaos sinModel cosModel
        (apply_chaos sinModel cosModel [42] (generate_seed [42]) 1 true)
        (generate_seed [42]) 3 false))) :=
  ⟨rfl, by decide,
    C2_recover_uses_three_levels sinModel cosModel (fun _ d => d) Except.ok
      (fun _ _ => []) [42] ⟨[], []⟩ 1 1 [42] rfl (by decide)⟩

/-- **C1.**  The claim (and the code's own test
`test_chaos_transform_reversible`) requires
`apply_chaos (apply_chaos d seed L true) seed L false = d`; the code's
inverse branch is not an algebraic inverse of the forward branch, and both
directions add the same `sin`/`cos` perturbation, so the round trip fails —
as the test's own comment concedes.  This theorem exhibits the failure at
data `[42]` with the test's seed 12345 and level count 3, with the
implementation-defined libm `sin`/`cos` both instantiated as the
constant-zero function (an admissible model of the abstracted parameters). -/
theorem C1_roundtrip_fails :
    apply_chaos cosModel cosModel
        (apply_chaos cosModel cosModel [42] 12345 3 true) 12345 3 false ≠
      [42] := by decide
